import Mathlib

/-!
Verification of the streaming combine/clean/filter pipeline of
src/untrained/data/combine_and_clean_v2.py.

The embedding is a shallow one over executable Lean definitions:

* Text is modelled as List Char; the Python functions operating on strings
  chunk-by-chunk or line-by-line become pure Lean functions over character
  lists, and whole-file streaming loops become folds over lists of chunks or
  lines.
* Python character classes are modelled at ASCII fidelity: the regular
  expression class backslash-s and the whitespace set of str.split and
  str.strip are the six ASCII whitespace characters.  The word-character
  class of the word-boundary assertion is the ASCII one.  Python handles a
  handful of additional Unicode whitespace code points; every claim settled
  here is insensitive to that difference, because such characters are in any
  case eliminated by the split-and-rejoin step before any output is written.
* The floating-point comparison max_count / len(words) > 0.8 is modelled by
  the exact rational comparison 4 * len(words) < 5 * max_count, which agrees
  with the double-precision computation for every physically realisable line
  length.
* File-system side effects of the combiner (reading a source, deleting it)
  are made explicit: a source file carries Option content, where none means
  the read or decode raises, and the combiner state records which sources
  were removed and which remain on disk.  Unlinking a file is assumed to
  succeed, and a failing plain-text read is modelled as atomic.
-/

/-! ### Character classes (clean_text_streaming, process_lines_streaming) -/

/-- The whitespace characters of Python str.split / str.strip and of the
regex class backslash-s, at ASCII fidelity. -/
def pyIsSpace (c : Char) : Bool :=
  c = ' ' || c = '\t' || c = '\n' || c = '\r' || c = '\x0b' || c = '\x0c'

/-- The character ranges a-z and A-Z of the regex in clean_text_streaming,
as code-point ranges (97-122 and 65-90). -/
def isAsciiAlphaCh (c : Char) : Bool :=
  (97 ≤ c.toNat && c.toNat ≤ 122) || (65 ≤ c.toNat && c.toNat ≤ 90)

/-- ASCII word characters (letters, digits 48-57, underscore), for the
word-boundary assertion of the metadata pattern. -/
def isWordCh (c : Char) : Bool :=
  isAsciiAlphaCh c || (48 ≤ c.toNat && c.toNat ≤ 57) || c = '_'

/-- A character survives the substitution re.sub of the class consisting of
everything outside a-z, A-Z, backslash-s, period, comma, exclamation mark,
question mark and newline, in clean_text_streaming. -/
def regexKeep (c : Char) : Bool :=
  isAsciiAlphaCh c || pyIsSpace c || c = '.' || c = ',' || c = '!' || c = '?'

/-- Characters allowed in the sanitized output: letters, space, newline and
the four punctuation marks. -/
def allowedOutB (c : Char) : Bool :=
  isAsciiAlphaCh c || c = ' ' || c = '\n' || c = '.' || c = ',' || c = '!' || c = '?'

/-! ### Metadata-token removal (the metadata_patterns loop) -/

/-- Does the pattern occur literally at the head of the list? -/
def listStartsWith : List Char → List Char → Bool
  | [], _ => true
  | _ :: _, [] => false
  | p :: ps, c :: cs => p = c && listStartsWith ps cs

/-- Does the pattern occur contiguously anywhere in the list? -/
def listContainsSub (pat : List Char) : List Char → Bool
  | [] => listStartsWith pat []
  | c :: cs => listStartsWith pat (c :: cs) || listContainsSub pat cs

/-- The single metadata lexicon entry of clean_text_streaming. -/
def gutMark : List Char := ['g', 'u', 't', 'e', 'n', 'b', 'e', 'r', 'g']

/-- Trailing word-boundary check of the metadata pattern. -/
def boundaryAfter : List Char → Bool
  | [] => true
  | c :: _ => !isWordCh c

/-- Leading word-boundary check of the metadata pattern, given the character
preceding the scan position in the original text (none at the start). -/
def prevBoundary : Option Char → Bool
  | none => true
  | some c => !isWordCh c

/-- Fueled scanner implementing re.sub of the word-bounded literal marker
with the empty string; the fuel is the length of the input, which each step
strictly decreases, so the zero-fuel branch is never taken. -/
def stripGutFuel : Nat → Option Char → List Char → List Char
  | 0, _, cs => cs
  | _ + 1, _, [] => []
  | fuel + 1, prev, c :: cs =>
    if prevBoundary prev && listStartsWith gutMark (c :: cs)
        && boundaryAfter (List.drop gutMark.length (c :: cs)) then
      stripGutFuel fuel (some 'g') (List.drop gutMark.length (c :: cs))
    else
      c :: stripGutFuel fuel (some c) cs

/-- The metadata_patterns removal loop of clean_text_streaming. -/
def removeMetadataTokens (cs : List Char) : List Char :=
  stripGutFuel cs.length none cs

/-! ### Splitting and joining (chunk.split, str.split, str.join) -/

/-- chunk.split on the newline character: splits at every newline, keeping
empty segments, and always returns at least one segment. -/
def splitNL : List Char → List (List Char)
  | [] => [[]]
  | c :: cs =>
    match splitNL cs with
    | [] => [[]]
    | l :: ls => if c = '\n' then [] :: l :: ls else (c :: l) :: ls

/-- Join a list of segments with a single separator character between
consecutive segments. -/
def joinSep (sep : Char) : List (List Char) → List Char
  | [] => []
  | [l] => l
  | l :: l2 :: ls => l ++ sep :: joinSep sep (l2 :: ls)

/-- One character of the right fold computing str.split: the pair holds the
token currently being built and the completed tokens to the right. -/
def wsStep (c : Char) (acc : List Char × List (List Char)) :
    List Char × List (List Char) :=
  if pyIsSpace c then ([], if acc.1.isEmpty then acc.2 else acc.1 :: acc.2)
  else (c :: acc.1, acc.2)

/-- Right fold computing str.split. -/
def splitWSCore (cs : List Char) : List Char × List (List Char) :=
  cs.foldr wsStep ([], [])

/-- Python str.split with no argument: maximal runs of non-whitespace
characters, with no empty tokens. -/
def splitWS (cs : List Char) : List (List Char) :=
  let p := splitWSCore cs
  if p.1.isEmpty then p.2 else p.1 :: p.2

/-- Python str.strip with no argument: remove leading and trailing
whitespace. -/
def pyStrip (cs : List Char) : List Char :=
  ((cs.dropWhile pyIsSpace).reverse.dropWhile pyIsSpace).reverse

/-! ### Consecutive-duplicate-word removal (the token loop) -/

/-- token.lower() on an ASCII token. -/
def lowerTok (t : List Char) : List Char := t.map Char.toLower

/-- The token loop of clean_text_streaming after the first token has been
appended: prev is the previously appended token; a token equal to it under
lower() is skipped, anything else is appended and becomes the new prev. -/
def dedupKeep (prev : List Char) : List (List Char) → List (List Char)
  | [] => []
  | t :: ts =>
    if lowerTok t = lowerTok prev then dedupKeep prev ts
    else t :: dedupKeep t ts

/-- The full token loop: the first token is always appended. -/
def dedupTokens : List (List Char) → List (List Char)
  | [] => []
  | t :: ts => t :: dedupKeep t ts

/-- Per-line body of the duplicate-word removal: split into tokens, drop
consecutive case-insensitive duplicates, rejoin with single spaces; a line
with no tokens becomes the empty line. -/
def dedupLine (l : List Char) : List Char :=
  let ds := dedupTokens (splitWS l)
  if ds.isEmpty then [] else joinSep ' ' ds

/-- The whole duplicate-word pass of clean_text_streaming on one chunk:
split into lines, dedup each line, rejoin with newlines. -/
def dedupPass (cs : List Char) : List Char :=
  joinSep '\n' ((splitNL cs).map dedupLine)

/-- re.sub of one-or-more spaces with a single space: collapse every run of
space characters to one space. -/
def collapseSpaces : List Char → List Char
  | [] => []
  | [c] => [c]
  | c :: d :: cs =>
    if c = ' ' && d = ' ' then collapseSpaces (d :: cs)
    else c :: collapseSpaces (d :: cs)

/-- The body of the while loop of clean_text_streaming on one chunk:
metadata removal, character filtering, per-line consecutive-duplicate-word
removal, space collapsing, in source order. -/
def clean_chunk (cs : List Char) : List Char :=
  collapseSpaces
    (joinSep '\n'
      ((splitNL ((removeMetadataTokens cs).filter regexKeep)).map dedupLine))

/-- clean_text_streaming: the output file is the concatenation of the
cleaned chunks, in read order. -/
def clean_text_streaming (chunks : List (List Char)) : List Char :=
  (chunks.map clean_chunk).flatten

/-- Checker: no two adjacent tokens are equal under lower(). -/
def noAdjDupB : List (List Char) → Bool
  | [] => true
  | [_] => true
  | a :: b :: ts => !decide (lowerTok a = lowerTok b) && noAdjDupB (b :: ts)

/-- Checker: no two adjacent characters are both the space character. -/
def noDS : List Char → Bool
  | [] => true
  | [_] => true
  | a :: b :: cs => !(decide (a = ' ') && decide (b = ' ')) && noDS (b :: cs)

/-! ### Text extraction and the combiner (extract_text_from_json,
combine_files_streaming) -/

/-- A parsed JSON document as far as extract_text_from_json inspects it.
body? is some items exactly when the document has a body key holding a
list; each item is some of its string fields exactly when it is a dict
(an association list models the dict, with the text field looked up by
key and every other field, such as pos, ignored). -/
structure JsonData where
  body? : Option (List (Option (List (String × String))))
deriving DecidableEq

/-- extract_text_from_json.  The argument is none when opening, decoding or
parsing the file raises: the exception is caught inside the function, a
warning is printed, and the empty string is returned (a soft error). -/
def extract_text_from_json : Option JsonData → String
  | none => ""
  | some d =>
    let texts := (d.body?.getD []).filterMap
      (fun item => item.bind (fun fields => fields.lookup "text"))
    if texts.isEmpty then "" else String.intercalate "\n" texts

/-- A source file as the combiner sees it.  A txt file carries its decoded
content, or none when opening, reading or decoding raises (the exception
propagates into the combiner loop and is caught there); a json file carries
its parse result, or none when parsing raises (caught inside the
extractor). -/
inductive SourceFile where
  | txt (content? : Option String)
  | json (data? : Option JsonData)
deriving DecidableEq

/-- A txt source whose read raises inside the combiner loop. -/
def isTxtReadError : SourceFile → Bool
  | .txt none => true
  | _ => false

/-- Observable result of combine_files_streaming: the combined output
stream, the deleted-count and total-bytes return values, and the source
files that were left on disk. -/
structure CombineResult where
  output : String
  deleted_count : Nat
  total_bytes : Nat
  leftOnDisk : List SourceFile
deriving DecidableEq

/-- One iteration of the combiner loop.  A txt file is streamed in chunks
(equivalently: its whole content) followed by one newline, then unlinked; a
txt read error is caught, the file stays on disk and the loop continues; a
json file has its extracted text written followed by one newline only when
the text is nonempty, and is unlinked in every case. -/
def combineStep (acc : CombineResult) (f : SourceFile) : CombineResult :=
  match f with
  | .txt none => { acc with leftOnDisk := acc.leftOnDisk ++ [f] }
  | .txt (some c) =>
    { acc with
      output := acc.output ++ c ++ "\n",
      total_bytes := acc.total_bytes + c.utf8ByteSize,
      deleted_count := acc.deleted_count + 1 }
  | .json d? =>
    let t := extract_text_from_json d?
    if t.isEmpty then { acc with deleted_count := acc.deleted_count + 1 }
    else
      { acc with
        output := acc.output ++ t ++ "\n",
        total_bytes := acc.total_bytes + t.utf8ByteSize,
        deleted_count := acc.deleted_count + 1 }

/-- combine_files_streaming over the enumerated source files. -/
def combine_files_streaming (files : List SourceFile) : CombineResult :=
  files.foldl combineStep
    { output := "", deleted_count := 0, total_bytes := 0, leftOnDisk := [] }

/-- What one source contributes to the combined stream. -/
def appendedText : SourceFile → String
  | .txt none => ""
  | .txt (some c) => c ++ "\n"
  | .json d? =>
    let t := extract_text_from_json d?
    if t.isEmpty then "" else t ++ "\n"

/-- Concatenation of a list of strings. -/
def strConcat : List String → String
  | [] => ""
  | s :: ss => s ++ strConcat ss

/-! ### The line filter (process_lines_streaming) -/

/-- State of the process_lines_streaming loop, including the lines written
to the output file (an empty entry stands for a bare newline write). -/
structure FilterState where
  seen : List (List Char)
  consecutive_empty : Nat
  removed_single_word : Nat
  duplicate_count : Nat
  removed_repeats : Nat
  total_lines : Nat
  out : List (List Char)
deriving DecidableEq

/-- Loop state at entry of process_lines_streaming. -/
def initFilterState : FilterState :=
  { seen := [], consecutive_empty := 0, removed_single_word := 0,
    duplicate_count := 0, removed_repeats := 0, total_lines := 0, out := [] }

/-- max of word_counts.values(): the largest multiplicity among the
lowercased words of the line (0 on no words). -/
def maxWordFreq (ws : List (List Char)) : Nat :=
  ((ws.map lowerTok).map (fun w => (ws.map lowerTok).count w)).foldr max 0

/-- The spam-repetition test of process_lines_streaming on a stripped line:
at least 5 words and the most frequent lowercased word exceeding 80 percent
of the words (exact-rational form of the float comparison). -/
def isSpamLine (l : List Char) : Bool :=
  let ws := splitWS l
  decide (5 ≤ ws.length) && decide (ws.length * 4 < maxWordFreq ws * 5)

/-- The body of the line loop of process_lines_streaming: strip; an empty
line is written only while the consecutive-empty count stays at most 2; a
non-empty line resets that count, then is dropped as single-word, dropped
as spam-repetition, dropped as a duplicate of a previously kept line, or
kept (written and remembered), in source order. -/
def process_one_line (st : FilterState) (raw : List Char) : FilterState :=
  let st := { st with total_lines := st.total_lines + 1 }
  let line := pyStrip raw
  if line.isEmpty then
    { st with
      consecutive_empty := st.consecutive_empty + 1,
      out := if st.consecutive_empty + 1 ≤ 2 then st.out ++ [[]] else st.out }
  else
    let st := { st with consecutive_empty := 0 }
    let words := splitWS line
    if words.length ≤ 1 then
      { st with removed_single_word := st.removed_single_word + 1 }
    else if 5 ≤ words.length ∧ words.length * 4 < maxWordFreq words * 5 then
      { st with removed_repeats := st.removed_repeats + 1 }
    else if line ∈ st.seen then
      { st with duplicate_count := st.duplicate_count + 1 }
    else
      { st with seen := st.seen ++ [line], out := st.out ++ [line] }

/-- process_lines_streaming over the raw lines of the sanitized file. -/
def process_lines_streaming (input : List (List Char)) : FilterState :=
  input.foldl process_one_line initFilterState

/-! ### Counting helpers for the blank-line claims -/

/-- Number of empty lines among the written output lines. -/
def countEmptyLines (ls : List (List Char)) : Nat :=
  (ls.filter (fun l => l.isEmpty)).length

/-- Longest run of consecutive empty entries. -/
def maxEmptyRunGo : List (List Char) → Nat → Nat → Nat
  | [], cur, best => max cur best
  | l :: ls, cur, best =>
    if l.isEmpty then maxEmptyRunGo ls (cur + 1) best
    else maxEmptyRunGo ls 0 (max cur best)

/-- Longest run of consecutive empty entries of a list of lines. -/
def maxEmptyRun (ls : List (List Char)) : Nat :=
  maxEmptyRunGo ls 0 0

/-- How many empty lines the filter writes for the given stripped lines,
starting with the given consecutive-empty count. -/
def emptyEmitted : Nat → List (List Char) → Nat
  | _, [] => 0
  | k, l :: ls =>
    if l.isEmpty then (if k + 1 ≤ 2 then 1 else 0) + emptyEmitted (k + 1) ls
    else emptyEmitted 0 ls

/-- Number of maximal runs of empty entries (the flag says whether the scan
is currently inside such a run). -/
def emptyRunsGo : Bool → List (List Char) → Nat
  | _, [] => 0
  | inRun, l :: ls =>
    if l.isEmpty then (if inRun then 0 else 1) + emptyRunsGo true ls
    else emptyRunsGo false ls

/-- Number of maximal runs of empty entries of a list of lines. -/
def emptyRuns (ls : List (List Char)) : Nat :=
  emptyRunsGo false ls

/-! ### Concrete scenario inputs -/

/-- Scenario C of the spec: a.txt with content hello world and a newline,
and b.json whose body holds one record with a text field and a pos field. -/
def scenarioC : List SourceFile :=
  [SourceFile.txt (some "hello world\n"),
   SourceFile.json (some { body? := some [some [("text", "foo bar"), ("pos", "NN")]] })]

/-- A json source whose parsing raises (a soft error inside the
extractor). -/
def badJsonOnly : List SourceFile :=
  [SourceFile.json none]

/-- Input exhibiting a blank-line run longer than two in the final output:
two empty lines, a single-word line (dropped, but it resets the
consecutive-empty count), then two more empty lines. -/
def blankRunInput : List (List Char) :=
  [['\n'], ['\n'], ['w', 'o', 'r', 'd', '\n'], ['\n'], ['\n']]

/-- The path condition under which the line loop increments the duplicate
counter: the stripped line is non-empty, has at least two words, is not
spam-repetition, and equals a previously kept line. -/
def dupCondition (st : FilterState) (raw : List Char) : Bool :=
  let l := pyStrip raw
  !l.isEmpty && !decide ((splitWS l).length ≤ 1) && !isSpamLine l
    && decide (l ∈ st.seen)

/-- Input with two equal (post-trim) empty lines around a kept line. -/
def dupEmptyInput : List (List Char) :=
  [['\n'], ['a', ' ', 'b', '\n'], ['\n']]

/-! ## Supporting lemmas -/

theorem str_append_assoc (a b c : String) : a ++ b ++ c = a ++ (b ++ c) := by
  apply String.ext
  simp [String.data_append, List.append_assoc]

theorem str_append_empty (s : String) : s ++ "" = s := by
  apply String.ext
  simp [String.data_append]

theorem str_empty_append (s : String) : "" ++ s = s := by
  apply String.ext
  simp [String.data_append]

/-- Fold characterization of the combiner loop: the output is the
concatenation of each file's contribution, the deleted count is the number
of files that are not failing txt reads, and exactly the failing txt reads
are left on disk. -/
theorem combineStep_foldl_spec (fs : List SourceFile) : ∀ acc : CombineResult,
    (List.foldl combineStep acc fs).output = acc.output ++ strConcat (fs.map appendedText)
    ∧ (List.foldl combineStep acc fs).deleted_count
        = acc.deleted_count + (fs.filter (fun f => !isTxtReadError f)).length
    ∧ (List.foldl combineStep acc fs).leftOnDisk
        = acc.leftOnDisk ++ fs.filter isTxtReadError := by
  induction fs with
  | nil => intro acc; simp [strConcat, str_append_empty]
  | cons f fs ih =>
    intro acc
    have h := ih (combineStep acc f)
    obtain ⟨h1, h2, h3⟩ := h
    refine ⟨?_, ?_, ?_⟩
    · rw [List.foldl_cons, h1]
      cases f with
      | txt c? =>
        cases c? with
        | none => simp [combineStep, appendedText, strConcat, str_empty_append, isTxtReadError]
        | some c => simp [combineStep, appendedText, strConcat, str_append_assoc]
      | json d? =>
        by_cases ht : (extract_text_from_json d?).isEmpty
        · simp [combineStep, appendedText, strConcat, ht, str_empty_append]
        · simp [combineStep, appendedText, strConcat, ht, str_append_assoc]
    · rw [List.foldl_cons, h2]
      cases f with
      | txt c? =>
        cases c? with
        | none => simp [combineStep, isTxtReadError]
        | some c => simp [combineStep, isTxtReadError]; omega
      | json d? =>
        by_cases ht : (extract_text_from_json d?).isEmpty
        · simp [combineStep, isTxtReadError, ht]; omega
        · simp [combineStep, isTxtReadError, ht]; omega
    · rw [List.foldl_cons, h3]
      cases f with
      | txt c? =>
        cases c? with
        | none => simp [combineStep, isTxtReadError]
        | some c => simp [combineStep, isTxtReadError]
      | json d? =>
        by_cases ht : (extract_text_from_json d?).isEmpty
        · simp [combineStep, isTxtReadError, ht]
        · simp [combineStep, isTxtReadError, ht]

/-! ## Claim C1 -/

/-- Claim C1 counterexample: a json source whose parsing raises a soft
error is nevertheless deleted and counted in the deleted-count result, even
though nothing was appended to the combined stream; nothing is left on
disk. -/
theorem C1_counterexample_json_deleted :
    (combine_files_streaming badJsonOnly).deleted_count = 1
    ∧ (combine_files_streaming badJsonOnly).leftOnDisk = []
    ∧ (combine_files_streaming badJsonOnly).output = "" := by
  decide

/-- Claim C1 (amended): a plain-text source whose read raises a soft error
is skipped (left on disk, not counted as deleted) and the run continues; a
plain-text source is deleted only with its content appended; but every json
source is deleted and counted, even when its parsing fails or no text is
extracted, in which case nothing is appended. -/
theorem C1_soft_error_handling :
    ∀ fs : List SourceFile,
      (combine_files_streaming fs).leftOnDisk = fs.filter isTxtReadError
      ∧ (combine_files_streaming fs).deleted_count
          = (fs.filter (fun f => !isTxtReadError f)).length
      ∧ (combine_files_streaming fs).output = strConcat (fs.map appendedText) := by
  intro fs
  have h := combineStep_foldl_spec fs
    { output := "", deleted_count := 0, total_bytes := 0, leftOnDisk := [] }
  obtain ⟨h1, h2, h3⟩ := h
  refine ⟨?_, ?_, ?_⟩
  · rw [combine_files_streaming, h3]; simp
  · rw [combine_files_streaming, h2]; simp
  · rw [combine_files_streaming, h1, str_empty_append]

/-! ## Claim C2 -/

/-- Claim C2 counterexample: on the two sources of Scenario C the combined
stream is not the claimed string, because the combiner writes the plain
text content (which already ends in a newline) and then one more newline. -/
theorem C2_counterexample_extra_newline :
    (combine_files_streaming scenarioC).output ≠ "hello world\nfoo bar\n" := by
  decide

/-- Claim C2 (amended): on Scenario C the combined stream is hello world,
newline, an empty line, foo bar, newline (the txt file keeps its own final
newline and the combiner appends another); both sources are deleted and the
value NN of the pos field never appears in the output. -/
theorem C2_scenarioC_combined :
    (combine_files_streaming scenarioC).output = "hello world\n\nfoo bar\n"
    ∧ (combine_files_streaming scenarioC).deleted_count = 2
    ∧ (combine_files_streaming scenarioC).leftOnDisk = []
    ∧ listContainsSub "NN".data (combine_files_streaming scenarioC).output.data = false := by
  decide

/-! ## Line-filter lemmas -/

theorem splitWS_nil : splitWS [] = [] := rfl

theorem isSpamLine_eq_true_iff (l : List Char) :
    isSpamLine l = true
      ↔ (5 ≤ (splitWS l).length ∧ (splitWS l).length * 4 < maxWordFreq (splitWS l) * 5) := by
  simp [isSpamLine]

/-- Every line the filter writes is either empty or has at least two
words; proved as an invariant of the loop state. -/
theorem foldl_out_words (ls : List (List Char)) :
    ∀ st : FilterState,
      st.out.all (fun l => l.isEmpty || decide (2 ≤ (splitWS l).length)) = true →
      ((List.foldl process_one_line st ls).out).all
        (fun l => l.isEmpty || decide (2 ≤ (splitWS l).length)) = true := by
  induction ls with
  | nil => intro st h; simpa using h
  | cons raw ls ih =>
    intro st h
    rw [List.foldl_cons]
    apply ih
    by_cases he : (pyStrip raw).isEmpty
    · by_cases hk : st.consecutive_empty + 1 ≤ 2
      · simp [process_one_line, he, hk, List.all_append, h]
      · simp [process_one_line, he, hk, h]
    · by_cases h1 : (splitWS (pyStrip raw)).length ≤ 1
      · simp [process_one_line, he, h1, h]
      · by_cases h5 : 5 ≤ (splitWS (pyStrip raw)).length
            ∧ (splitWS (pyStrip raw)).length * 4 < maxWordFreq (splitWS (pyStrip raw)) * 5
        · simp [process_one_line, he, h1, h5, h]
        · by_cases hs : pyStrip raw ∈ st.seen
          · simp [process_one_line, he, h1, h5, hs, h]
          · simp [process_one_line, he, h1, h5, hs, List.all_append, h]
            omega

/-! ## Claim C3 -/

/-- Claim C3 counterexample: an empty input line is written through to the
final output (as a bare newline), and an empty line has zero
whitespace-separated words, so a line with word count below two does appear
in the final output. -/
theorem C3_counterexample_empty_line :
    (process_lines_streaming [['\n']]).out = [[]]
    ∧ (splitWS ([] : List Char)).length = 0 := by
  decide

/-- Claim C3 (amended): every line written to the final output is either
empty (an empty line passed through under the consecutive-empties cap) or
has at least 2 whitespace-separated words; single-word lines never appear
in the final output. -/
theorem C3_output_word_count :
    ∀ input : List (List Char),
      ((process_lines_streaming input).out).all
        (fun l => l.isEmpty || decide (2 ≤ (splitWS l).length)) = true := by
  intro input
  exact foldl_out_words input initFilterState (by decide)

/-! ## Claim C6 -/

theorem countEmptyLines_append_empty (xs : List (List Char)) :
    countEmptyLines (xs ++ [[]]) = countEmptyLines xs + 1 := by
  simp [countEmptyLines, List.filter_append]

theorem countEmptyLines_append_nonempty (xs : List (List Char)) (l : List Char)
    (h : l.isEmpty = false) :
    countEmptyLines (xs ++ [l]) = countEmptyLines xs := by
  simp [countEmptyLines, List.filter_append, h]

/-- Exact count of the empty lines written by the filter loop, as a
function of the starting consecutive-empty count and the stripped input
lines. -/
theorem foldl_countEmpty (ls : List (List Char)) :
    ∀ st : FilterState,
      countEmptyLines (List.foldl process_one_line st ls).out
        = countEmptyLines st.out + emptyEmitted st.consecutive_empty (ls.map pyStrip) := by
  induction ls with
  | nil => intro st; simp [emptyEmitted]
  | cons raw ls ih =>
    intro st
    rw [List.foldl_cons, ih]
    by_cases he : (pyStrip raw).isEmpty
    · by_cases hk : st.consecutive_empty + 1 ≤ 2
      · simp [process_one_line, he, hk, emptyEmitted, countEmptyLines_append_empty]
        omega
      · simp [process_one_line, he, hk, emptyEmitted]
    · by_cases h1 : (splitWS (pyStrip raw)).length ≤ 1
      · simp [process_one_line, he, h1, emptyEmitted]
      · by_cases h5 : 5 ≤ (splitWS (pyStrip raw)).length
            ∧ (splitWS (pyStrip raw)).length * 4 < maxWordFreq (splitWS (pyStrip raw)) * 5
        · simp [process_one_line, he, h1, h5, emptyEmitted]
        · by_cases hs : pyStrip raw ∈ st.seen
          · simp [process_one_line, he, h1, h5, hs, emptyEmitted]
          · simp [process_one_line, he, h1, h5, hs, emptyEmitted,
              countEmptyLines_append_nonempty _ _ (by simpa using he)]

/-- The filter writes at most two empty lines per maximal run of empty
stripped input lines. -/
theorem emptyEmitted_le_runs (ls : List (List Char)) :
    emptyEmitted 0 ls ≤ 2 * emptyRunsGo false ls
    ∧ ∀ k, 1 ≤ k → emptyEmitted k ls ≤ 2 * emptyRunsGo true ls + (2 - min 2 k) := by
  induction ls with
  | nil => simp [emptyEmitted, emptyRunsGo]
  | cons l ls ih =>
    obtain ⟨ih0, ih1⟩ := ih
    by_cases he : l.isEmpty
    · constructor
      · have h1 := ih1 1 (by omega)
        simp [emptyEmitted, emptyRunsGo, he]
        omega
      · intro k hk
        have h2 := ih1 (k + 1) (by omega)
        have e1 : emptyEmitted k (l :: ls)
            = (if k + 1 ≤ 2 then 1 else 0) + emptyEmitted (k + 1) ls := by
          simp [emptyEmitted, he]
        have e2 : emptyRunsGo true (l :: ls) = emptyRunsGo true ls := by
          simp [emptyRunsGo, he]
        rw [e1, e2]
        by_cases hk2 : k + 1 ≤ 2
        · rw [if_pos hk2]; omega
        · rw [if_neg hk2]; omega
    · constructor
      · simp [emptyEmitted, emptyRunsGo, he, ih0]
      · intro k hk
        simp [emptyEmitted, emptyRunsGo, he]
        omega

/-- Claim C6 counterexample: the final output for blankRunInput is four
consecutive empty lines, a run longer than 2, because the dropped
single-word line reset the consecutive-empty counter without writing
anything. -/
theorem C6_counterexample_blank_run :
    (process_lines_streaming blankRunInput).out = [[], [], [], []]
    ∧ maxEmptyRun (process_lines_streaming blankRunInput).out = 4 := by
  decide

/-- Claim C6 (amended): at most 2 empty lines are emitted per maximal run
of consecutive empty input lines, so the number of empty output lines is at
most twice the number of such runs; since any non-empty input line, even a
dropped one, resets the empty-run counter, runs of more than 2 empty lines
can still appear in the final output. -/
theorem C6_empty_line_cap :
    ∀ input : List (List Char),
      countEmptyLines (process_lines_streaming input).out
        ≤ 2 * emptyRuns (input.map pyStrip) := by
  intro input
  have h := foldl_countEmpty input initFilterState
  have h2 := (emptyEmitted_le_runs (input.map pyStrip)).1
  rw [process_lines_streaming, h]
  simp only [initFilterState] at *
  simpa [countEmptyLines, emptyRuns] using h2

/-! ## Claim C8 -/

/-- Claim C8: the spam-repetition counter is incremented exactly on lines
whose stripped form has at least 5 words with the most frequent word
(case-insensitively) holding strictly more than 80 percent of them; such a
line is dropped (nothing is written); the 6-word line of Scenario B
qualifies; and a line with fewer than 5 words is never classified as
spam-repetition. -/
theorem C8_spam_repetition_rule :
    (∀ (st : FilterState) (raw : List Char),
        (process_one_line st raw).removed_repeats
          = st.removed_repeats + (if isSpamLine (pyStrip raw) then 1 else 0))
    ∧ (∀ (st : FilterState) (raw : List Char),
        isSpamLine (pyStrip raw) = true → (process_one_line st raw).out = st.out)
    ∧ isSpamLine ("spam spam spam spam spam word".data) = true
    ∧ (∀ l : List Char, (splitWS l).length < 5 → isSpamLine l = false) := by
  have key : ∀ (st : FilterState) (raw : List Char),
      (process_one_line st raw).removed_repeats
          = st.removed_repeats + (if isSpamLine (pyStrip raw) then 1 else 0)
        ∧ (isSpamLine (pyStrip raw) = true → (process_one_line st raw).out = st.out) := by
    intro st raw
    by_cases he : (pyStrip raw).isEmpty
    · have hspam : isSpamLine (pyStrip raw) = false := by
        have : pyStrip raw = [] := by simpa [List.isEmpty_iff] using he
        simp [isSpamLine, this, splitWS_nil]
      by_cases hk : st.consecutive_empty + 1 ≤ 2
      · simp [process_one_line, he, hk, hspam]
      · simp [process_one_line, he, hk, hspam]
    · by_cases h1 : (splitWS (pyStrip raw)).length ≤ 1
      · have hspam : isSpamLine (pyStrip raw) = false := by
          simp [isSpamLine]
          omega
        simp [process_one_line, he, h1, hspam]
      · by_cases h5 : 5 ≤ (splitWS (pyStrip raw)).length
            ∧ (splitWS (pyStrip raw)).length * 4 < maxWordFreq (splitWS (pyStrip raw)) * 5
        · have hspam : isSpamLine (pyStrip raw) = true := by
            simp [isSpamLine]
            exact h5
          simp [process_one_line, he, h1, h5, hspam]
        · have hspam : isSpamLine (pyStrip raw) = false := by
            simp [isSpamLine]
            omega
          by_cases hs : pyStrip raw ∈ st.seen
          · simp [process_one_line, he, h1, h5, hs, hspam]
          · simp [process_one_line, he, h1, h5, hs, hspam]
  refine ⟨fun st raw => (key st raw).1, fun st raw => (key st raw).2, by decide, ?_⟩
  intro l hl
  simp [isSpamLine]
  omega

/-- Witness for C8: the Scenario B line is classified spam and dropped
(nothing written), and a concrete 2-word line is not spam. -/
theorem C8_spam_repetition_rule_witness :
    (isSpamLine (pyStrip ("spam spam spam spam spam word\n".data)) = true
      ∧ (process_one_line initFilterState ("spam spam spam spam spam word\n".data)).out
          = initFilterState.out)
    ∧ ((splitWS ("hi there".data)).length < 5 ∧ isSpamLine ("hi there".data) = false) := by
  refine ⟨⟨by decide, ?_⟩, by decide, ?_⟩
  · exact C8_spam_repetition_rule.2.1 initFilterState ("spam spam spam spam spam word\n".data)
      (by decide)
  · exact C8_spam_repetition_rule.2.2.2 ("hi there".data) (by decide)

/-! ## Claim C9 -/

/-- Loop invariant: the non-empty lines written so far are exactly the
remembered kept lines, in order, and they are pairwise distinct. -/
theorem foldl_seen_inv (ls : List (List Char)) :
    ∀ st : FilterState,
      st.out.filter (fun l => !l.isEmpty) = st.seen → st.seen.Nodup →
      ((List.foldl process_one_line st ls).out.filter (fun l => !l.isEmpty)
          = (List.foldl process_one_line st ls).seen
        ∧ (List.foldl process_one_line st ls).seen.Nodup) := by
  induction ls with
  | nil => intro st h1 h2; exact ⟨h1, h2⟩
  | cons raw ls ih =>
    intro st h1 h2
    rw [List.foldl_cons]
    by_cases he : (pyStrip raw).isEmpty
    · by_cases hk : st.consecutive_empty + 1 ≤ 2
      · exact ih _ (by simp [process_one_line, he, hk, List.filter_append, h1])
          (by simpa [process_one_line, he, hk] using h2)
      · exact ih _ (by simp [process_one_line, he, hk, h1])
          (by simpa [process_one_line, he, hk] using h2)
    · by_cases hw : (splitWS (pyStrip raw)).length ≤ 1
      · exact ih _ (by simp [process_one_line, he, hw, h1])
          (by simpa [process_one_line, he, hw] using h2)
      · by_cases h5 : 5 ≤ (splitWS (pyStrip raw)).length
            ∧ (splitWS (pyStrip raw)).length * 4 < maxWordFreq (splitWS (pyStrip raw)) * 5
        · exact ih _ (by simp [process_one_line, he, hw, h5, h1])
            (by simpa [process_one_line, he, hw, h5] using h2)
        · by_cases hs : pyStrip raw ∈ st.seen
          · exact ih _ (by simp [process_one_line, he, hw, h5, hs, h1])
              (by simpa [process_one_line, he, hw, h5, hs] using h2)
          · refine ih _ ?_ ?_
            · simp [process_one_line, he, hw, h5, hs, List.filter_append, h1]
            · simp [process_one_line, he, hw, h5, hs, List.nodup_append, h2]

/-- Claim C9 counterexample: the first and third input lines are equal
after trimming (both empty), yet both survive to the final output, and the
duplicate counter stays 0; empty lines bypass the deduplication set. -/
theorem C9_counterexample_empty_pair :
    (process_lines_streaming dupEmptyInput).out = [[], ['a', ' ', 'b'], []]
    ∧ (process_lines_streaming dupEmptyInput).duplicate_count = 0
    ∧ pyStrip ['\n'] = pyStrip ['\n'] := by
  decide

/-- Claim C9 (amended): among non-empty (post-trim) lines, only the first
occurrence of a line survives: the non-empty lines of the final output are
pairwise distinct (they are exactly the growing kept-lines set), and the
duplicate counter is incremented exactly when a non-empty, multi-word,
non-spam line equals a previously kept one. -/
theorem C9_exact_dedup :
    (∀ input : List (List Char),
        ((process_lines_streaming input).out.filter (fun l => !l.isEmpty)).Nodup)
    ∧ (∀ (st : FilterState) (raw : List Char),
        (process_one_line st raw).duplicate_count
          = st.duplicate_count + (if dupCondition st raw then 1 else 0)) := by
  constructor
  · intro input
    have h := foldl_seen_inv input initFilterState (by decide) (by decide)
    rw [process_lines_streaming]
    rw [h.1]
    exact h.2
  · intro st raw
    by_cases he : (pyStrip raw).isEmpty
    · by_cases hk : st.consecutive_empty + 1 ≤ 2
      · simp [process_one_line, he, hk, dupCondition]
      · simp [process_one_line, he, hk, dupCondition]
    · by_cases hw : (splitWS (pyStrip raw)).length ≤ 1
      · simp [process_one_line, he, hw, dupCondition]
      · by_cases h5 : 5 ≤ (splitWS (pyStrip raw)).length
            ∧ (splitWS (pyStrip raw)).length * 4 < maxWordFreq (splitWS (pyStrip raw)) * 5
        · have hspam : isSpamLine (pyStrip raw) = true := by
            simp [isSpamLine]; exact h5
          simp [process_one_line, he, hw, h5, dupCondition, hspam]
        · have hspam : isSpamLine (pyStrip raw) = false := by
            simp [isSpamLine]; omega
          by_cases hs : pyStrip raw ∈ st.seen
          · simp [process_one_line, he, hw, h5, hs, dupCondition, hspam]
          · simp [process_one_line, he, hw, h5, hs, dupCondition, hspam]

/-! ## Sanitizer lemmas: tokens of str.split -/

/-- Invariant of the split fold: the pending token and all finished tokens
consist of non-whitespace characters of the input, and finished tokens are
non-empty. -/
theorem splitWSCore_inv (cs : List Char) :
    (∀ c ∈ (splitWSCore cs).1, c ∈ cs ∧ pyIsSpace c = false)
    ∧ (∀ t ∈ (splitWSCore cs).2, t ≠ [] ∧ ∀ c ∈ t, c ∈ cs ∧ pyIsSpace c = false) := by
  induction cs with
  | nil => simp [splitWSCore]
  | cons x cs ih =>
    obtain ⟨ih1, ih2⟩ := ih
    have hstep : splitWSCore (x :: cs) = wsStep x (splitWSCore cs) := rfl
    by_cases hx : pyIsSpace x
    · rw [hstep]
      by_cases hcur : (splitWSCore cs).1.isEmpty
      · simp only [wsStep, hx, if_true, hcur]
        refine ⟨by simp, ?_⟩
        intro t ht
        obtain ⟨h1, h2⟩ := ih2 t ht
        exact ⟨h1, fun c hc => ⟨List.mem_cons_of_mem x (h2 c hc).1, (h2 c hc).2⟩⟩
      · simp only [wsStep, hx, if_true, hcur]
        refine ⟨by simp, ?_⟩
        intro t ht
        simp only [if_false, Bool.false_eq_true] at ht
        rcases List.mem_cons.mp ht with h | h
        · subst h
          refine ⟨by simpa [List.isEmpty_iff] using hcur, ?_⟩
          intro c hc
          exact ⟨List.mem_cons_of_mem x (ih1 c hc).1, (ih1 c hc).2⟩
        · obtain ⟨h1, h2⟩ := ih2 t h
          exact ⟨h1, fun c hc => ⟨List.mem_cons_of_mem x (h2 c hc).1, (h2 c hc).2⟩⟩
    · rw [hstep]
      simp only [wsStep, hx, if_false, Bool.false_eq_true]
      constructor
      · intro c hc
        rcases List.mem_cons.mp hc with h | h
        · subst h; exact ⟨List.mem_cons_self _ _, by simpa using hx⟩
        · exact ⟨List.mem_cons_of_mem x (ih1 c h).1, (ih1 c h).2⟩
      · intro t ht
        obtain ⟨h1, h2⟩ := ih2 t ht
        exact ⟨h1, fun c hc => ⟨List.mem_cons_of_mem x (h2 c hc).1, (h2 c hc).2⟩⟩

/-- Every token of str.split is non-empty and consists of non-whitespace
characters of the input. -/
theorem splitWS_tokens (cs : List Char) :
    ∀ t ∈ splitWS cs, t ≠ [] ∧ ∀ c ∈ t, c ∈ cs ∧ pyIsSpace c = false := by
  intro t ht
  obtain ⟨h1, h2⟩ := splitWSCore_inv cs
  by_cases hcur : (splitWSCore cs).1.isEmpty
  · simp only [splitWS, hcur, if_true] at ht
    exact h2 t ht
  · simp only [splitWS, hcur, if_false, Bool.false_eq_true] at ht
    rcases List.mem_cons.mp ht with h | h
    · subst h
      exact ⟨by simpa [List.isEmpty_iff] using hcur, h1⟩
    · exact h2 t h

/-- Folding the split step over a whitespace-free block prepends the block
to the pending token. -/
theorem foldr_wsStep_nonspace (t : List Char) (h : ∀ c ∈ t, pyIsSpace c = false) :
    ∀ p : List Char × List (List Char), List.foldr wsStep p t = (t ++ p.1, p.2) := by
  induction t with
  | nil => intro p; simp
  | cons c t ih =>
    intro p
    have hc : pyIsSpace c = false := h c (List.mem_cons_self _ _)
    have ht : ∀ c ∈ t, pyIsSpace c = false := fun d hd => h d (List.mem_cons_of_mem c hd)
    simp [List.foldr_cons, ih ht, wsStep, hc]

/-- Splitting the space-joined list of good tokens recovers the tokens. -/
theorem splitWSCore_joinSep (ts : List (List Char))
    (hts : ∀ t ∈ ts, t ≠ [] ∧ ∀ c ∈ t, pyIsSpace c = false) :
    ∀ t0, t0 ≠ [] → (∀ c ∈ t0, pyIsSpace c = false) →
      splitWSCore (joinSep ' ' (t0 :: ts)) = (t0, ts) := by
  induction ts with
  | nil =>
    intro t0 _ h0
    have : joinSep ' ' [t0] = t0 := rfl
    rw [this, splitWSCore, foldr_wsStep_nonspace t0 h0]
    simp
  | cons t1 ts ih =>
    intro t0 h0ne h0
    have h1 := hts t1 (List.mem_cons_self _ _)
    have hts' : ∀ t ∈ ts, t ≠ [] ∧ ∀ c ∈ t, pyIsSpace c = false :=
      fun t ht => hts t (List.mem_cons_of_mem t1 ht)
    have hrec : splitWSCore (joinSep ' ' (t1 :: ts)) = (t1, ts) :=
      ih hts' t1 h1.1 h1.2
    have hjoin : joinSep ' ' (t0 :: t1 :: ts) = t0 ++ ' ' :: joinSep ' ' (t1 :: ts) := rfl
    rw [hjoin, splitWSCore, List.foldr_append, foldr_wsStep_nonspace t0 h0]
    have : List.foldr wsStep ([], []) (' ' :: joinSep ' ' (t1 :: ts))
        = wsStep ' ' (splitWSCore (joinSep ' ' (t1 :: ts))) := rfl
    rw [this, hrec]
    simp [wsStep, pyIsSpace, h1.1]

/-- str.split is a left inverse of the single-space join on lists of
non-empty whitespace-free tokens. -/
theorem splitWS_joinSep (ts : List (List Char))
    (hts : ∀ t ∈ ts, t ≠ [] ∧ ∀ c ∈ t, pyIsSpace c = false) :
    splitWS (joinSep ' ' ts) = ts := by
  cases ts with
  | nil => rfl
  | cons t0 ts =>
    have h0 := hts t0 (List.mem_cons_self _ _)
    have hts' : ∀ t ∈ ts, t ≠ [] ∧ ∀ c ∈ t, pyIsSpace c = false :=
      fun t ht => hts t (List.mem_cons_of_mem t0 ht)
    rw [splitWS, splitWSCore_joinSep ts hts' t0 h0.1 h0.2]
    simp [h0.1]

/-! ## Sanitizer lemmas: the duplicate-word collapse -/

theorem dedupKeep_subset (ts : List (List Char)) :
    ∀ p t, t ∈ dedupKeep p ts → t ∈ ts := by
  induction ts with
  | nil => intro p t h; simp [dedupKeep] at h
  | cons a ts ih =>
    intro p t h
    by_cases ha : lowerTok a = lowerTok p
    · simp only [dedupKeep, ha, if_true] at h
      exact List.mem_cons_of_mem a (ih p t h)
    · simp only [dedupKeep, ha, if_false] at h
      rcases List.mem_cons.mp h with h | h
      · exact h ▸ List.mem_cons_self a ts
      · exact List.mem_cons_of_mem a (ih a t h)

theorem dedupTokens_subset (ts : List (List Char)) :
    ∀ t, t ∈ dedupTokens ts → t ∈ ts := by
  cases ts with
  | nil => intro t h; simp [dedupTokens] at h
  | cons a ts =>
    intro t h
    rcases List.mem_cons.mp h with h | h
    · exact h ▸ List.mem_cons_self a ts
    · exact List.mem_cons_of_mem a (dedupKeep_subset ts a t h)

/-- The first token the loop keeps after prev differs from prev under
lower(). -/
theorem dedupKeep_head_ne (ts : List (List Char)) :
    ∀ p q qs, dedupKeep p ts = q :: qs → lowerTok q ≠ lowerTok p := by
  induction ts with
  | nil => intro p q qs h; simp [dedupKeep] at h
  | cons a ts ih =>
    intro p q qs h
    by_cases ha : lowerTok a = lowerTok p
    · simp only [dedupKeep, ha, if_true] at h
      exact ih p q qs h
    · simp only [dedupKeep, ha, if_false] at h
      obtain ⟨h1, _⟩ := List.cons.injEq .. ▸ h
      exact h1 ▸ ha

/-- The kept tokens have no adjacent pair equal under lower(). -/
theorem noAdjDupB_dedupKeep (ts : List (List Char)) :
    ∀ p, noAdjDupB (dedupKeep p ts) = true := by
  induction ts with
  | nil => intro p; simp [dedupKeep, noAdjDupB]
  | cons a ts ih =>
    intro p
    by_cases ha : lowerTok a = lowerTok p
    · simp only [dedupKeep, ha, if_true]
      exact ih p
    · simp only [dedupKeep, ha, if_false]
      cases hk : dedupKeep a ts with
      | nil => simp [noAdjDupB]
      | cons q qs =>
        have hne : lowerTok q ≠ lowerTok a := dedupKeep_head_ne ts a q qs hk
        have : noAdjDupB (q :: qs) = true := hk ▸ ih a
        simp [noAdjDupB, this]
        exact fun hh => hne hh.symm

theorem noAdjDupB_dedupTokens (ts : List (List Char)) :
    noAdjDupB (dedupTokens ts) = true := by
  cases ts with
  | nil => simp [dedupTokens, noAdjDupB]
  | cons a ts =>
    simp only [dedupTokens]
    cases hk : dedupKeep a ts with
    | nil => simp [noAdjDupB]
    | cons q qs =>
      have hne : lowerTok q ≠ lowerTok a := dedupKeep_head_ne ts a q qs hk
      have : noAdjDupB (q :: qs) = true := hk ▸ noAdjDupB_dedupKeep ts a
      simp [noAdjDupB, this]
      exact fun hh => hne hh.symm

/-- On a token list with no adjacent duplicates the loop keeps
everything. -/
theorem dedupKeep_fixpoint (ts : List (List Char)) :
    ∀ p, noAdjDupB (p :: ts) = true → dedupKeep p ts = ts := by
  induction ts with
  | nil => intro p _; rfl
  | cons a ts ih =>
    intro p h
    simp only [noAdjDupB, Bool.and_eq_true] at h
    obtain ⟨h1, h2⟩ := h
    have ha : lowerTok a ≠ lowerTok p := by
      simp at h1
      exact fun hh => h1 hh.symm
    simp only [dedupKeep, ha, if_false]
    rw [ih a h2]

theorem dedupTokens_fixpoint (ts : List (List Char))
    (h : noAdjDupB ts = true) : dedupTokens ts = ts := by
  cases ts with
  | nil => rfl
  | cons a ts =>
    simp only [dedupTokens]
    rw [dedupKeep_fixpoint ts a h]

/-! ## Sanitizer lemmas: per-line dedup -/

/-- The deduplicated tokens of a line are non-empty and whitespace-free,
with characters drawn from the line. -/
theorem dedupLine_tokens_good (l : List Char) :
    ∀ t ∈ dedupTokens (splitWS l), t ≠ [] ∧ ∀ c ∈ t, c ∈ l ∧ pyIsSpace c = false := by
  intro t ht
  exact splitWS_tokens l t (dedupTokens_subset (splitWS l) t ht)

/-- Splitting a deduplicated line recovers exactly its deduplicated
tokens. -/
theorem splitWS_dedupLine (l : List Char) :
    splitWS (dedupLine l) = dedupTokens (splitWS l) := by
  cases hd : dedupTokens (splitWS l) with
  | nil => simp [dedupLine, hd, splitWS_nil]
  | cons d ds =>
    have hgood : ∀ t ∈ dedupTokens (splitWS l),
        t ≠ [] ∧ ∀ c ∈ t, pyIsSpace c = false := by
      intro t ht
      obtain ⟨h1, h2⟩ := dedupLine_tokens_good l t ht
      exact ⟨h1, fun c hc => (h2 c hc).2⟩
    have : dedupLine l = joinSep ' ' (dedupTokens (splitWS l)) := by
      simp [dedupLine, hd]
    rw [this, splitWS_joinSep _ hgood]
    exact hd

/-- The duplicate-word collapse is idempotent on single lines. -/
theorem dedupLine_idem (l : List Char) : dedupLine (dedupLine l) = dedupLine l := by
  have h1 : dedupTokens (splitWS (dedupLine l)) = dedupTokens (splitWS l) := by
    rw [splitWS_dedupLine]
    exact dedupTokens_fixpoint _ (noAdjDupB_dedupTokens (splitWS l))
  cases hd : dedupTokens (splitWS l) with
  | nil =>
    have hl : dedupLine l = [] := by simp [dedupLine, hd]
    rw [hl]
    rfl
  | cons d ds =>
    show (if (dedupTokens (splitWS (dedupLine l))).isEmpty then []
      else joinSep ' ' (dedupTokens (splitWS (dedupLine l)))) = dedupLine l
    rw [h1, hd]
    simp [dedupLine, hd]

/-- The tokens of a deduplicated line have no adjacent case-insensitive
duplicates. -/
theorem noAdjDupB_splitWS_dedupLine (l : List Char) :
    noAdjDupB (splitWS (dedupLine l)) = true := by
  rw [splitWS_dedupLine]
  exact noAdjDupB_dedupTokens (splitWS l)

/-! ## Sanitizer lemmas: joined output characters -/

theorem mem_joinSep (sep : Char) (ls : List (List Char)) :
    ∀ c ∈ joinSep sep ls, c = sep ∨ ∃ l ∈ ls, c ∈ l := by
  induction ls with
  | nil => intro c hc; simp [joinSep] at hc
  | cons l ls ih =>
    intro c hc
    cases ls with
    | nil =>
      right
      exact ⟨l, List.mem_cons_self _ _, hc⟩
    | cons l1 ls1 =>
      have : joinSep sep (l :: l1 :: ls1) = l ++ sep :: joinSep sep (l1 :: ls1) := rfl
      rw [this] at hc
      rcases List.mem_append.mp hc with h | h
      · exact Or.inr ⟨l, List.mem_cons_self _ _, h⟩
      · rcases List.mem_cons.mp h with h | h
        · exact Or.inl h
        · rcases ih c h with h | ⟨l2, hl2, hc2⟩
          · exact Or.inl h
          · exact Or.inr ⟨l2, List.mem_cons_of_mem l hl2, hc2⟩

/-- Characters of a deduplicated line: the joining space or a
non-whitespace character of the original line. -/
theorem mem_dedupLine (l : List Char) :
    ∀ c ∈ dedupLine l, c = ' ' ∨ (c ∈ l ∧ pyIsSpace c = false) := by
  intro c hc
  cases hd : dedupTokens (splitWS l) with
  | nil => rw [dedupLine, hd] at hc; simp at hc
  | cons d ds =>
    rw [dedupLine, hd] at hc
    simp only [List.isEmpty_cons, if_false, Bool.false_eq_true] at hc
    rcases mem_joinSep ' ' (d :: ds) c hc with h | ⟨t, ht, hct⟩
    · exact Or.inl h
    · obtain ⟨_, h2⟩ := dedupLine_tokens_good l t (hd ▸ ht)
      exact Or.inr (h2 c hct)
/-! ## Sanitizer lemmas: no double spaces and collapse -/

theorem noDS_cons_cons (a b : Char) (cs : List Char) :
    noDS (a :: b :: cs) = ((!(decide (a = ' ') && decide (b = ' '))) && noDS (b :: cs)) := rfl

theorem noAdjDupB_cons_cons (a b : List Char) (ts : List (List Char)) :
    noAdjDupB (a :: b :: ts)
      = ((!decide (lowerTok a = lowerTok b)) && noAdjDupB (b :: ts)) := rfl

/-- Prepending a list without space characters preserves the no-double-space
property. -/
theorem noDS_append_nonspace (l : List Char) (hl : ∀ c ∈ l, c ≠ ' ') :
    ∀ r, noDS r = true → noDS (l ++ r) = true := by
  induction l with
  | nil => intro r hr; simpa using hr
  | cons a l ih =>
    intro r hr
    have ha : a ≠ ' ' := hl a (List.mem_cons_self _ _)
    have hl' : ∀ c ∈ l, c ≠ ' ' := fun c hc => hl c (List.mem_cons_of_mem a hc)
    have htail : noDS (l ++ r) = true := ih hl' r hr
    rw [List.cons_append]
    cases hlr : l ++ r with
    | nil => simp [noDS]
    | cons b rest =>
      rw [hlr] at htail
      rw [noDS_cons_cons, htail]
      simp [ha]

/-- Joining two no-double-space lists with a non-space separator preserves
the property. -/
theorem noDS_append_sep (l : List Char) :
    ∀ r b, noDS l = true → noDS r = true → b ≠ ' ' → noDS (l ++ b :: r) = true := by
  induction l with
  | nil =>
    intro r b _ hr hb
    rw [List.nil_append]
    cases r with
    | nil => simp [noDS]
    | cons c r' =>
      rw [noDS_cons_cons, hr]
      simp [hb]
  | cons a l ih =>
    intro r b hl hr hb
    cases l with
    | nil =>
      have h1 : noDS (b :: r) = true := by
        have := ih r b (by simp [noDS]) hr hb
        simpa using this
      rw [List.cons_append, List.nil_append, noDS_cons_cons, h1]
      simp [hb]
    | cons a2 l2 =>
      rw [noDS_cons_cons, Bool.and_eq_true] at hl
      obtain ⟨hpair, hl2⟩ := hl
      have htail := ih r b hl2 hr hb
      rw [List.cons_append] at htail
      have goalEq : (a :: a2 :: l2) ++ b :: r = a :: a2 :: (l2 ++ b :: r) := by simp
      rw [goalEq, noDS_cons_cons, htail]
      simpa using hpair

theorem joinSep_cons2 (sep : Char) (t t1 : List Char) (ts : List (List Char)) :
    joinSep sep (t :: t1 :: ts) = t ++ sep :: joinSep sep (t1 :: ts) := rfl

/-- The space-join of non-empty whitespace-free tokens has no double
spaces, and neither does it with one leading space. -/
theorem noDS_joinSep_tokens (ts : List (List Char))
    (hts : ∀ t ∈ ts, t ≠ [] ∧ ∀ c ∈ t, pyIsSpace c = false) :
    noDS (joinSep ' ' ts) = true
    ∧ (ts ≠ [] → noDS (' ' :: joinSep ' ' ts) = true) := by
  induction ts with
  | nil => exact ⟨by simp [joinSep, noDS], by simp⟩
  | cons t ts ih =>
    have ht := hts t (List.mem_cons_self _ _)
    have hts' : ∀ u ∈ ts, u ≠ [] ∧ ∀ c ∈ u, pyIsSpace c = false :=
      fun u hu => hts u (List.mem_cons_of_mem t hu)
    obtain ⟨ih1, ih2⟩ := ih hts'
    have htns : ∀ c ∈ t, c ≠ ' ' := by
      intro c hc hsp
      have := (ht.2 c hc)
      rw [hsp] at this
      simp [pyIsSpace] at this
    have first : noDS (joinSep ' ' (t :: ts)) = true := by
      cases ts with
      | nil =>
        show noDS t = true
        have := noDS_append_nonspace t htns [] (by simp [noDS])
        simpa using this
      | cons t1 ts1 =>
        rw [joinSep_cons2]
        exact noDS_append_nonspace t htns _ (ih2 (by simp))
    refine ⟨first, ?_⟩
    intro _
    obtain ⟨c, t', hct⟩ : ∃ c t', t = c :: t' := by
      cases t with
      | nil => exact absurd rfl ht.1
      | cons c t' => exact ⟨c, t', rfl⟩
    have hc : c ≠ ' ' := htns c (hct ▸ List.mem_cons_self _ _)
    cases ts with
    | nil =>
      have hjs : joinSep ' ' [t] = t := rfl
      have hfirst : noDS (c :: t') = true := by
        rw [hjs, hct] at first
        exact first
      show noDS (' ' :: t) = true
      rw [hct, noDS_cons_cons, hfirst]
      simp [hc]
    | cons t1 ts1 =>
      rw [joinSep_cons2, hct, List.cons_append, noDS_cons_cons]
      have : noDS (c :: (t' ++ ' ' :: joinSep ' ' (t1 :: ts1))) = true := by
        have := first
        rw [joinSep_cons2, hct, List.cons_append] at this
        exact this
      rw [this]
      simp [hc]

/-- Joining no-double-space lines with newlines keeps the property. -/
theorem noDS_joinSep_nl (ls : List (List Char))
    (hls : ∀ l ∈ ls, noDS l = true) : noDS (joinSep '\n' ls) = true := by
  induction ls with
  | nil => simp [joinSep, noDS]
  | cons l ls ih =>
    have hl := hls l (List.mem_cons_self _ _)
    have hls' : ∀ u ∈ ls, noDS u = true := fun u hu => hls u (List.mem_cons_of_mem l hu)
    cases ls with
    | nil => exact hl
    | cons l1 ls1 =>
      rw [joinSep_cons2]
      exact noDS_append_sep l _ '\n' hl (ih hls') (by decide)

/-- Space collapsing is the identity on text without double spaces. -/
theorem collapseSpaces_noop (cs : List Char) (h : noDS cs = true) :
    collapseSpaces cs = cs := by
  induction cs with
  | nil => rfl
  | cons a cs ih =>
    cases cs with
    | nil => rfl
    | cons b cs' =>
      rw [noDS_cons_cons, Bool.and_eq_true] at h
      obtain ⟨hab, h2⟩ := h
      have : collapseSpaces (a :: b :: cs') =
          if a = ' ' && b = ' ' then collapseSpaces (b :: cs')
          else a :: collapseSpaces (b :: cs') := rfl
      rw [this, ih h2]
      have hd : ¬a = ' ' ∨ ¬b = ' ' := by simpa using hab
      have : (decide (a = ' ') && decide (b = ' ')) = false := by
        rcases hd with h | h <;> simp [h]
      simp [this]

/-- A deduplicated line has no double spaces. -/
theorem noDS_dedupLine (l : List Char) : noDS (dedupLine l) = true := by
  cases hd : dedupTokens (splitWS l) with
  | nil => simp [dedupLine, hd, noDS]
  | cons d ds =>
    have hgood : ∀ t ∈ dedupTokens (splitWS l),
        t ≠ [] ∧ ∀ c ∈ t, pyIsSpace c = false := by
      intro t ht
      obtain ⟨h1, h2⟩ := dedupLine_tokens_good l t ht
      exact ⟨h1, fun c hc => (h2 c hc).2⟩
    have : dedupLine l = joinSep ' ' (dedupTokens (splitWS l)) := by
      simp [dedupLine, hd]
    rw [this]
    exact (noDS_joinSep_tokens _ hgood).1

/-- Space collapsing only removes characters. -/
theorem mem_collapseSpaces (cs : List Char) :
    ∀ c ∈ collapseSpaces cs, c ∈ cs := by
  induction cs with
  | nil => intro c hc; simp [collapseSpaces] at hc
  | cons a cs ih =>
    cases cs with
    | nil => intro c hc; simpa [collapseSpaces] using hc
    | cons b cs' =>
      intro c hc
      have hun : collapseSpaces (a :: b :: cs') =
          if a = ' ' && b = ' ' then collapseSpaces (b :: cs')
          else a :: collapseSpaces (b :: cs') := rfl
      rw [hun] at hc
      by_cases hab : (a = ' ' && b = ' ') = true
      · rw [if_pos hab] at hc
        exact List.mem_cons_of_mem a (ih c hc)
      · rw [if_neg hab] at hc
        rcases List.mem_cons.mp hc with h | h
        · exact h ▸ List.mem_cons_self _ _
        · exact List.mem_cons_of_mem a (ih c h)

/-! ## Sanitizer lemmas: newline splitting -/

theorem splitNL_cons_eq (c : Char) (cs l0 : List Char) (ls : List (List Char))
    (h : splitNL cs = l0 :: ls) :
    splitNL (c :: cs) = if c = '\n' then [] :: l0 :: ls else (c :: l0) :: ls := by
  rw [splitNL, h]

theorem splitNL_ne_nil (cs : List Char) : splitNL cs ≠ [] := by
  cases cs with
  | nil => simp [splitNL]
  | cons c cs =>
    rw [splitNL]
    cases h : splitNL cs with
    | nil => simp
    | cons l ls =>
      by_cases hc : c = '\n' <;> simp [hc]

/-- Characters of a newline-split segment belong to the input and are not
newlines. -/
theorem mem_splitNL (cs : List Char) :
    ∀ l ∈ splitNL cs, ∀ c ∈ l, c ∈ cs ∧ c ≠ '\n' := by
  induction cs with
  | nil =>
    intro l hl c hc
    simp [splitNL] at hl
    subst hl
    simp at hc
  | cons x cs ih =>
    intro l hl c hc
    cases h : splitNL cs with
    | nil => exact absurd h (splitNL_ne_nil cs)
    | cons l0 ls =>
      rw [splitNL_cons_eq x cs l0 ls h] at hl
      by_cases hx : x = '\n'
      · rw [if_pos hx] at hl
        rcases List.mem_cons.mp hl with hh | hh
        · subst hh; simp at hc
        · have := ih l (h ▸ hh) c hc
          exact ⟨List.mem_cons_of_mem x this.1, this.2⟩
      · rw [if_neg hx] at hl
        rcases List.mem_cons.mp hl with hh | hh
        · subst hh
          rcases List.mem_cons.mp hc with hh2 | hh2
          · subst hh2; exact ⟨List.mem_cons_self _ _, hx⟩
          · have := ih l0 (h ▸ List.mem_cons_self _ _) c hh2
            exact ⟨List.mem_cons_of_mem x this.1, this.2⟩
        · have := ih l (h ▸ List.mem_cons_of_mem l0 hh) c hc
          exact ⟨List.mem_cons_of_mem x this.1, this.2⟩

/-- A newline-free list splits into itself. -/
theorem splitNL_single (l : List Char) (h : '\n' ∉ l) : splitNL l = [l] := by
  induction l with
  | nil => rfl
  | cons c l ih =>
    have hc : c ≠ '\n' := fun hh => h (hh ▸ List.mem_cons_self _ _)
    have hl : '\n' ∉ l := fun hh => h (List.mem_cons_of_mem c hh)
    rw [splitNL, ih hl]
    simp [fun hh => hc hh]

/-- Splitting after a newline-free prefix and a newline peels off the
prefix. -/
theorem splitNL_append_nl (l : List Char) (h : '\n' ∉ l) :
    ∀ r, splitNL (l ++ '\n' :: r) = l :: splitNL r := by
  induction l with
  | nil =>
    intro r
    rw [List.nil_append, splitNL]
    cases hr : splitNL r with
    | nil => exact absurd hr (splitNL_ne_nil r)
    | cons l0 ls => simp
  | cons c l ih =>
    intro r
    have hc : c ≠ '\n' := fun hh => h (hh ▸ List.mem_cons_self _ _)
    have hl : '\n' ∉ l := fun hh => h (List.mem_cons_of_mem c hh)
    rw [List.cons_append, splitNL, ih hl]
    cases hr : splitNL r with
    | nil => exact absurd hr (splitNL_ne_nil r)
    | cons l0 ls => simp [hc]

/-- Newline splitting is a left inverse of newline joining on non-empty
lists of newline-free lines. -/
theorem splitNL_joinSep (ls : List (List Char)) :
    ls ≠ [] → (∀ l ∈ ls, '\n' ∉ l) → splitNL (joinSep '\n' ls) = ls := by
  induction ls with
  | nil => intro h _; exact absurd rfl h
  | cons l ls ih =>
    intro _ hnl
    have hl : '\n' ∉ l := hnl l (List.mem_cons_self _ _)
    cases ls with
    | nil =>
      show splitNL l = [l]
      exact splitNL_single l hl
    | cons l1 ls1 =>
      rw [joinSep_cons2, splitNL_append_nl l hl]
      rw [ih (by simp) (fun u hu => hnl u (List.mem_cons_of_mem l hu))]

/-! ## Sanitizer lemmas: structure of a cleaned chunk -/

theorem nl_not_mem_dedupLine (l : List Char) (h : '\n' ∉ l) : '\n' ∉ dedupLine l := by
  intro hmem
  rcases mem_dedupLine l '\n' hmem with hh | hh
  · exact absurd hh (by decide)
  · exact h hh.1

/-- The final space collapse of clean_chunk is the identity: the dedup
rejoin already leaves no double spaces. -/
theorem clean_chunk_eq_join (cs : List Char) :
    clean_chunk cs
      = joinSep '\n'
          ((splitNL ((removeMetadataTokens cs).filter regexKeep)).map dedupLine) := by
  rw [clean_chunk]
  apply collapseSpaces_noop
  apply noDS_joinSep_nl
  intro l hl
  obtain ⟨l0, _, hmap⟩ := List.mem_map.mp hl
  exact hmap ▸ noDS_dedupLine l0

/-- The lines of a cleaned chunk are exactly the deduplicated lines of the
filtered text. -/
theorem splitNL_clean_chunk (cs : List Char) :
    splitNL (clean_chunk cs)
      = (splitNL ((removeMetadataTokens cs).filter regexKeep)).map dedupLine := by
  rw [clean_chunk_eq_join]
  apply splitNL_joinSep
  · simpa using splitNL_ne_nil ((removeMetadataTokens cs).filter regexKeep)
  · intro l hl
    obtain ⟨l0, hl0, hmap⟩ := List.mem_map.mp hl
    have : '\n' ∉ l0 := by
      intro hnl
      exact (mem_splitNL _ l0 hl0 '\n' hnl).2 rfl
    exact hmap ▸ nl_not_mem_dedupLine l0 this

/-! ## Claim C7 -/

/-- Claim C7 counterexample: when a line spans a chunk boundary the
duplicate-word collapse runs per chunk, so the sanitized output can contain
adjacent case-insensitive duplicate tokens: two chunks that split the text
cat cat dog inside its second token produce exactly that line. -/
theorem C7_counterexample_chunk_boundary :
    clean_text_streaming
        [['c', 'a', 't', ' ', 'c'], ['a', 't', ' ', 'd', 'o', 'g']]
      = ['c', 'a', 't', ' ', 'c', 'a', 't', ' ', 'd', 'o', 'g']
    ∧ ((splitNL (clean_text_streaming
        [['c', 'a', 't', ' ', 'c'], ['a', 't', ' ', 'd', 'o', 'g']])).all
          (fun l => noAdjDupB (splitWS l))) = false := by
  decide

/-- Claim C7 (amended): within every single chunk, each line of the
sanitized output has no two adjacent tokens equal case-insensitively, and
re-running the duplicate-word collapse on a cleaned chunk changes nothing;
the kept occurrence preserves the first casing, as in Scenario A.  Only
lines spanning a chunk boundary can escape the collapse. -/
theorem C7_dedup_idempotent_per_chunk :
    (∀ cs : List Char,
      ((splitNL (clean_chunk cs)).all (fun l => noAdjDupB (splitWS l))) = true
      ∧ dedupPass (clean_chunk cs) = clean_chunk cs)
    ∧ clean_chunk ("The the cat sat.\n".data) = "The cat sat.\n".data := by
  constructor
  · intro cs
    constructor
    · rw [splitNL_clean_chunk, List.all_eq_true]
      intro l hl
      obtain ⟨l0, _, hmap⟩ := List.mem_map.mp hl
      exact hmap ▸ noAdjDupB_splitWS_dedupLine l0
    · rw [dedupPass, splitNL_clean_chunk, clean_chunk_eq_join, List.map_map]
      have : (dedupLine ∘ dedupLine) = dedupLine := by
        funext l
        exact dedupLine_idem l
      rw [this]
  · decide

/-! ## Claim C4 -/

theorem regexKeep_nonspace_allowed (c : Char)
    (h1 : regexKeep c = true) (h2 : pyIsSpace c = false) : allowedOutB c = true := by
  simp only [regexKeep, Bool.or_eq_true] at h1
  rcases h1 with ((((h | h) | h) | h) | h) | h
  · simp [allowedOutB, h]
  · rw [h2] at h; exact absurd h (by simp)
  · simp [allowedOutB, h]
  · simp [allowedOutB, h]
  · simp [allowedOutB, h]
  · simp [allowedOutB, h]

/-- Every character of a cleaned chunk is allowed. -/
theorem allowed_clean_chunk (cs : List Char) :
    ∀ c ∈ clean_chunk cs, allowedOutB c = true := by
  intro c hc
  rw [clean_chunk_eq_join] at hc
  rcases mem_joinSep '\n' _ c hc with h | ⟨dl, hdl, hcdl⟩
  · simp [allowedOutB, h]
  · obtain ⟨l0, hl0, hmap⟩ := List.mem_map.mp hdl
    rcases mem_dedupLine l0 c (hmap ▸ hcdl) with h | ⟨hmem, hns⟩
    · simp [allowedOutB, h]
    · have hfil := (mem_splitNL _ l0 hl0 c hmem).1
      have hkeep : regexKeep c = true := (List.mem_filter.mp hfil).2
      exact regexKeep_nonspace_allowed c hkeep hns

/-- Every character of the whole sanitized stream is allowed, for every
chunked input. -/
theorem clean_text_charset (chunks : List (List Char)) :
    (clean_text_streaming chunks).all allowedOutB = true := by
  rw [List.all_eq_true]
  intro c hc
  rw [clean_text_streaming] at hc
  obtain ⟨l, hl, hcl⟩ := List.mem_flatten.mp hc
  obtain ⟨chunk, _, hmap⟩ := List.mem_map.mp hl
  exact allowed_clean_chunk chunk c (hmap ▸ hcl)

/-- Claim C4: the sanitized output contains no character outside letters,
space, newline, period, comma, exclamation mark and question mark: digits
and all other punctuation, symbols and whitespace (tab, carriage return)
are absent, for every chunked input. -/
theorem C4_sanitized_charset :
    ∀ chunks : List (List Char),
      (clean_text_streaming chunks).all allowedOutB = true :=
  clean_text_charset

/-! ## Claim C10 -/

theorem allowedOutB_ascii (c : Char) (h : allowedOutB c = true) : c.toNat < 128 := by
  simp only [allowedOutB, isAsciiAlphaCh, Bool.or_eq_true, Bool.and_eq_true,
    decide_eq_true_eq] at h
  rcases h with ((((((h | h) | h) | h) | h) | h) | h) | h
  · omega
  · omega
  · rw [h]; decide
  · rw [h]; decide
  · rw [h]; decide
  · rw [h]; decide
  · rw [h]; decide
  · rw [h]; decide

/-- Claim C10: the allowed letters are exactly the ASCII ranges: every
character of the sanitized output is an ASCII code point, so every
non-ASCII alphabetic character (such as an accented letter) is deleted, as
on the concrete input cafe with an accented e. -/
theorem C10_ascii_letters_only :
    (∀ chunks : List (List Char),
      (clean_text_streaming chunks).all (fun c => decide (c.toNat < 128)) = true)
    ∧ clean_chunk ("café".data) = "caf".data := by
  constructor
  · intro chunks
    rw [List.all_eq_true]
    intro c hc
    have h := (List.all_eq_true.mp (clean_text_charset chunks)) c hc
    simpa using allowedOutB_ascii c h
  · decide

/-! ## Claim C5 -/

/-- Claim C5 counterexample: sanitizing the Scenario D line does not yield
the claimed string with a single exclamation mark. -/
theorem C5_counterexample_double_bang :
    clean_chunk ("The Year 2024 was great!!".data) ≠ "The Year was great!".data := by
  decide

/-- Claim C5 (amended): sanitizing the Scenario D line deletes the digits
and collapses the resulting double space, but punctuation is never
deduplicated, so both exclamation marks remain. -/
theorem C5_scenarioD_sanitized :
    clean_chunk ("The Year 2024 was great!!".data) = "The Year was great!!".data := by
  decide
